import Mathlib

/-!
Shallow embedding of the FitGirl manifest verifier (`src/md5.py`).

Python strings are modelled as `List Char` (a Python `str` is a sequence of
code points), bytes as `Nat` values below 256, and machine integers as `Nat`
with explicit `% 2^32` / `% 2^64` where the MD5 arithmetic wraps.  The
`hashlib.md5` streaming accumulator is modelled by accumulating the bytes fed
to it and hashing the concatenation at `hexdigest` time, which is its
documented semantics.  The shared `isRunning` flag is a single monotone
boolean written once by the controller: a run of a task is summarised by the
index `cutoff` of the first flag read that observes `False` (`none` when the
flag is never cleared); flag reads are numbered in program order by a counter
threaded through the model.
-/

set_option maxRecDepth 100000
set_option linter.unusedVariables false

abbrev PyStr := List Char

/-- Word size constant `2^32` used by the MD5 arithmetic. -/
def pow32 : Nat := 4294967296

/-- Reduce a natural number to 32 bits. -/
def m32 (x : Nat) : Nat := x % pow32

/-- 32-bit wrapping addition. -/
def add32 (a b : Nat) : Nat := m32 (a + b)

/-- 32-bit bitwise complement. -/
def not32 (x : Nat) : Nat := m32 x ^^^ 4294967295

/-- 32-bit left rotation by `n` (for `n ≤ 32`). -/
def rotl32 (x n : Nat) : Nat := m32 (m32 x <<< n) ||| (m32 x >>> (32 - n))

/-- The 64 MD5 sine-table constants of RFC 1321. -/
def md5K : List Nat :=
  [0xd76aa478, 0xe8c7b756, 0x242070db, 0xc1bdceee,
   0xf57c0faf, 0x4787c62a, 0xa8304613, 0xfd469501,
   0x698098d8, 0x8b44f7af, 0xffff5bb1, 0x895cd7be,
   0x6b901122, 0xfd987193, 0xa679438e, 0x49b40821,
   0xf61e2562, 0xc040b340, 0x265e5a51, 0xe9b6c7aa,
   0xd62f105d, 0x02441453, 0xd8a1e681, 0xe7d3fbc8,
   0x21e1cde6, 0xc33707d6, 0xf4d50d87, 0x455a14ed,
   0xa9e3e905, 0xfcefa3f8, 0x676f02d9, 0x8d2a4c8a,
   0xfffa3942, 0x8771f681, 0x6d9d6122, 0xfde5380c,
   0xa4beea44, 0x4bdecfa9, 0xf6bb4b60, 0xbebfbc70,
   0x289b7ec6, 0xeaa127fa, 0xd4ef3085, 0x04881d05,
   0xd9d4d039, 0xe6db99e5, 0x1fa27cf8, 0xc4ac5665,
   0xf4292244, 0x432aff97, 0xab9423a7, 0xfc93a039,
   0x655b59c3, 0x8f0ccc92, 0xffeff47d, 0x85845dd1,
   0x6fa87e4f, 0xfe2ce6e0, 0xa3014314, 0x4e0811a1,
   0xf7537e82, 0xbd3af235, 0x2ad7d2bb, 0xeb86d391]

/-- The 64 per-round MD5 rotation amounts. -/
def md5S : List Nat :=
  [7, 12, 17, 22, 7, 12, 17, 22, 7, 12, 17, 22, 7, 12, 17, 22,
   5, 9, 14, 20, 5, 9, 14, 20, 5, 9, 14, 20, 5, 9, 14, 20,
   4, 11, 16, 23, 4, 11, 16, 23, 4, 11, 16, 23, 4, 11, 16, 23,
   6, 10, 15, 21, 6, 10, 15, 21, 6, 10, 15, 21, 6, 10, 15, 21]

/-- Round function of MD5 for round `i` on words `b c d`. -/
def md5F (i b c d : Nat) : Nat :=
  if i < 16 then (b &&& c) ||| (not32 b &&& d)
  else if i < 32 then (d &&& b) ||| (not32 d &&& c)
  else if i < 48 then b ^^^ c ^^^ d
  else c ^^^ (b ||| not32 d)

/-- Message-word index used by MD5 round `i`. -/
def md5G (i : Nat) : Nat :=
  if i < 16 then i
  else if i < 32 then (5 * i + 1) % 16
  else if i < 48 then (3 * i + 5) % 16
  else (7 * i) % 16

/-- One MD5 round step on the state `(a, b, c, d)`. -/
def md5Step (M : Nat → Nat) (st : Nat × Nat × Nat × Nat) (i : Nat) :
    Nat × Nat × Nat × Nat :=
  let (a, b, c, d) := st
  let f := add32 (add32 (add32 (md5F i b c d) a) (md5K.getD i 0)) (M (md5G i))
  (d, add32 b (rotl32 f (md5S.getD i 0)), b, c)

/-- Process one 64-byte block (given as a byte list) into the MD5 state. -/
def md5Block (st : Nat × Nat × Nat × Nat) (block : List Nat) :
    Nat × Nat × Nat × Nat :=
  let M := fun g => block.getD (4 * g) 0 + 256 * block.getD (4 * g + 1) 0 +
    65536 * block.getD (4 * g + 2) 0 + 16777216 * block.getD (4 * g + 3) 0
  let r := (List.range 64).foldl (md5Step M) st
  (add32 st.1 r.1, add32 st.2.1 r.2.1, add32 st.2.2.1 r.2.2.1, add32 st.2.2.2 r.2.2.2)

/-- Little-endian 8-byte encoding of a 64-bit length value. -/
def lenBytes (n : Nat) : List Nat :=
  [n % 256, n / 256 % 256, n / 65536 % 256, n / 16777216 % 256,
   n / 4294967296 % 256, n / 1099511627776 % 256,
   n / 281474976710656 % 256, n / 72057594037927936 % 256]

/-- MD5 padding: append `0x80`, zero fill to 56 mod 64, then the bit length. -/
def md5Pad (msg : List Nat) : List Nat :=
  msg ++ 128 :: List.replicate ((119 - msg.length % 64) % 64) 0 ++
    lenBytes (msg.length * 8 % 18446744073709551616)

/-- Split a byte list into 64-byte blocks (fuel-based structural recursion;
the fuel is an upper bound on the number of blocks, so the `0` case is never
hit when called with fuel `l.length`). -/
def toBlocksAux : Nat → List Nat → List (List Nat)
  | _, [] => []
  | 0, _ => []
  | f + 1, l => l.take 64 :: toBlocksAux f (l.drop 64)

/-- Split a byte list into 64-byte blocks. -/
def toBlocks (l : List Nat) : List (List Nat) := toBlocksAux l.length l

/-- MD5 digest of a byte string, as the four 32-bit state words. -/
def md5Digest (msg : List Nat) : Nat × Nat × Nat × Nat :=
  (toBlocks (md5Pad msg)).foldl md5Block
    (0x67452301, 0xefcdab89, 0x98badcfe, 0x10325476)

/-- The sixteen lowercase hexadecimal digits, in value order. -/
def hexDigits : PyStr := "0123456789abcdef".data

/-- Lowercase hexadecimal digit of a value below 16. -/
def hexChar (n : Nat) : Char := hexDigits.getD n '0'

/-- Little-endian byte decomposition of a 32-bit word. -/
def wordLEBytes (w : Nat) : List Nat :=
  [w % 256, w / 256 % 256, w / 65536 % 256, w / 16777216 % 256]

/-- Two lowercase hex characters per byte, in order. -/
def bytesHex : List Nat → PyStr
  | [] => []
  | b :: bs => hexChar (b / 16 % 16) :: hexChar (b % 16) :: bytesHex bs

/-- Model of `hashlib.md5(msg).hexdigest()`: the 32-character lowercase
hexadecimal digest of `msg`. -/
def md5Hex (msg : List Nat) : PyStr :=
  bytesHex (wordLEBytes (md5Digest msg).1 ++ wordLEBytes (md5Digest msg).2.1 ++
    wordLEBytes (md5Digest msg).2.2.1 ++ wordLEBytes (md5Digest msg).2.2.2)

/-- Sentinel returned by `calculateMd5` when the run was cancelled. -/
def cancelledS : PyStr := "CANCELLED".data

/-- Sentinel returned by `calculateMd5` on an I/O failure. -/
def ioErrorS : PyStr := "IO_ERROR".data

/-- Terminal status string "MISSING" used by `_processFile`. -/
def missingS : PyStr := "MISSING".data

/-- Terminal status string "ERROR" used by `_processFile`. -/
def errorS : PyStr := "ERROR".data

/-- Terminal status string "OK" used by `_processFile`. -/
def okS : PyStr := "OK".data

/-- Terminal status string "FAILED" used by `_processFile`. -/
def failedS : PyStr := "FAILED".data

/-- Display label "I/O ERROR" carried by the `fileFinished` signal for the
ERROR terminal status. -/
def ioErrLabelS : PyStr := "I/O ERROR".data

/-- Model of `str.lower()` (ASCII case folding suffices for the hex digests
and status strings handled here). -/
def toLowerS (s : PyStr) : PyStr := s.map Char.toLower

/-- The shared monotone `isRunning` flag: `isRun k t` is the value returned
by the `t`-th read of the flag (in program order) when `k` is the index of
the first read that observes `False` (`none` when the controller never calls
`stop()`). -/
def isRun (k : Option Nat) (t : Nat) : Bool :=
  match k with
  | none => true
  | some c => t < c

/-- State of the file underlying one task, fixed for the duration of the
task.  `present bytes faultAt` is a readable file with the given content
whose read of chunk number `faultAt` (if any) raises `IOError`; `vanished`
passes the `os.path.exists` check but raises `FileNotFoundError` when
`calculateMd5` opens it (the race the code handles at lines 207-209);
`openFault` raises `IOError` at `getsize`/`open` time. -/
inductive FileSys
  | absent
  | vanished
  | openFault
  | present (bytes : List Nat) (faultAt : Option Nat)
deriving DecidableEq

/-- The sequence of chunks `f.read(blockSize)` yields for a file with the
given content: successive `take blockSize` slices (fuel-based; the fuel is
an upper bound on the chunk count).  `blockSize = 0` yields no chunks, as
`f.read(0)` returns `b''` at once. -/
def chunksOf (bs : Nat) : Nat → List Nat → List (List Nat)
  | _, [] => []
  | 0, _ :: _ => []
  | f + 1, x :: xs =>
    if bs = 0 then [] else (x :: xs).take bs :: chunksOf bs f ((x :: xs).drop bs)

/-- Chunk sequence of a file content at a given block size. -/
def chunks (bs : Nat) (l : List Nat) : List (List Nat) := chunksOf bs l.length l

/-- Observable outcome of one `calculateMd5` call: the Python return value
(`none` models `None`), the percentages passed to `progressCallback` in
order (`invs`), the sub-sequence of them forwarded by `_processFile`'s
lambda (which re-reads `isRunning` before emitting, `emits`), the number of
content bytes consumed, whether the file was opened, and the value of the
flag-read counter after the call. -/
structure CalcOut where
  result : Option PyStr
  invs : List Int
  emits : List Int
  consumed : Nat
  opened : Bool
  tEnd : Nat
deriving DecidableEq

/-- The `while True` read loop of `calculateMd5` (lines 127-141), one case
per loop iteration over the pre-computed chunk sequence.  Each iteration
first reads the cancellation flag (`if isRunningCheck and not
isRunningCheck()`), then performs the read — which raises `IOError` when
this is the fault chunk — and on a non-empty chunk feeds the accumulator,
advances `bytesRead`, and reports progress when the integer percentage grew;
an empty read breaks out, fires the final `100` callback if the last
reported percentage was below `100`, and returns the digest.  The `int()`
float truncation of line 136 is modelled as exact floor division. -/
def md5Loop (total : Nat) (hasCb : Bool) (k faultAt : Option Nat) :
    Nat → Nat → Nat → Int → List Nat → List Int → List Int →
    List (List Nat) → CalcOut
  | j, t, consumed, lastPct, acc, invs, emits, [] =>
    if isRun k t = false then ⟨some cancelledS, invs, emits, consumed, true, t + 1⟩
    else if faultAt = some j then ⟨some ioErrorS, invs, emits, consumed, true, t + 1⟩
    else if hasCb = true ∧ lastPct < 100 then
      ⟨some (md5Hex acc), invs ++ [100],
        if isRun k (t + 1) = true then emits ++ [100] else emits, consumed, true, t + 2⟩
    else ⟨some (md5Hex acc), invs, emits, consumed, true, t + 1⟩
  | j, t, consumed, lastPct, acc, invs, emits, data :: rest =>
    if isRun k t = false then ⟨some cancelledS, invs, emits, consumed, true, t + 1⟩
    else if faultAt = some j then ⟨some ioErrorS, invs, emits, consumed, true, t + 1⟩
    else
      if hasCb = true ∧ 0 < total then
        if lastPct < (((consumed + data.length) * 100 / total : Nat) : Int) then
          md5Loop total hasCb k faultAt (j + 1) (t + 2) (consumed + data.length)
            (((consumed + data.length) * 100 / total : Nat) : Int)
            (acc ++ data) (invs ++ [(((consumed + data.length) * 100 / total : Nat) : Int)])
            (if isRun k (t + 1) = true then
              emits ++ [(((consumed + data.length) * 100 / total : Nat) : Int)]
            else emits) rest
        else
          md5Loop total hasCb k faultAt (j + 1) (t + 1) (consumed + data.length) lastPct
            (acc ++ data) invs emits rest
      else
        md5Loop total hasCb k faultAt (j + 1) (t + 1) (consumed + data.length) lastPct
          (acc ++ data) invs emits rest

/-- Model of `calculateMd5` (lines 115-146).  `hasCb` records whether a
`progressCallback` was supplied; an absent `isRunningCheck` behaves like
`k = none`.  `t0` is the value of the flag-read counter when the call
starts. -/
def calculateMd5 (fs : FileSys) (blockSize : Nat) (hasCb : Bool)
    (k : Option Nat) (t0 : Nat) : CalcOut :=
  match fs with
  | .absent => ⟨none, [], [], 0, false, t0⟩
  | .vanished => ⟨none, [], [], 0, false, t0⟩
  | .openFault => ⟨some ioErrorS, [], [], 0, false, t0⟩
  | .present bytes faultAt =>
    md5Loop bytes.length hasCb k faultAt 0 t0 0 (-1) [] [] [] (chunks blockSize bytes)

/-- Per-task lifecycle events emitted through the Qt signals. -/
inductive Event
  | started
  | progress (p : Int)
  | finished (label : PyStr)
deriving DecidableEq

/-- Result of one `_processFile` call: the returned status code, the events
emitted for this task in order, and whether the task opened its file. -/
structure ProcOut where
  status : PyStr
  events : List Event
  opened : Bool
deriving DecidableEq

/-- Display label carried by the `fileFinished` signal for a status code:
the status itself, except ERROR which is displayed as "I/O ERROR". -/
def finishLabel (s : PyStr) : PyStr := if s = errorS then ioErrLabelS else s

/-- Model of `VerifierThread._processFile` (lines 186-219).  Flag reads are
numbered from 0 (the entry check); `calculateMd5`'s reads start at 1 and the
post-call check uses the next unused index. -/
def processFile (fs : FileSys) (expectedHash : PyStr) (k : Option Nat) : ProcOut :=
  if isRun k 0 = false then ⟨cancelledS, [], false⟩
  else if fs = .absent then ⟨missingS, [.started, .finished missingS], false⟩
  else
    let c := calculateMd5 fs 655360 true k 1
    let evs := Event.started :: c.emits.map Event.progress
    if isRun k c.tEnd = false ∨ c.result = some cancelledS then ⟨cancelledS, evs, c.opened⟩
    else
      match c.result with
      | none => ⟨missingS, evs ++ [.finished missingS], c.opened⟩
      | some r =>
        if r = ioErrorS then ⟨errorS, evs ++ [.finished ioErrLabelS], c.opened⟩
        else if toLowerS r = toLowerS expectedHash then ⟨okS, evs ++ [.finished okS], c.opened⟩
        else ⟨failedS, evs ++ [.finished failedS], c.opened⟩

/-- Predicate for Python whitespace stripped by `str.strip()`. -/
def isWsChar (c : Char) : Bool := c.isWhitespace

/-- Model of `str.strip()`: drop whitespace from both ends. -/
def stripL (l : PyStr) : PyStr :=
  ((l.dropWhile isWsChar).reverse.dropWhile isWsChar).reverse

/-- The line filter of the read comprehension (lines 466, 471): keep lines
whose stripped form is non-empty and does not start with `;`. -/
def keepLine (s : PyStr) : Bool := !s.isEmpty && s.head? != some ';'

/-- The read comprehension `[ln.strip() for ln in f if ln.strip() and not
ln.strip().startswith(';')]`. -/
def stage1 (lines : List PyStr) : List PyStr := (lines.map stripL).filter keepLine

/-- Model of `line.split('*', 1)`: `none` when the line has no `*` (the
two-element case never arises), otherwise the parts before and after the
first `*`. -/
def splitFirst : PyStr → Option (PyStr × PyStr)
  | [] => none
  | c :: rest =>
    if c = '*' then some ([], rest)
    else
      match splitFirst rest with
      | none => none
      | some ab => some (c :: ab.1, ab.2)

/-- The platform path separator `os.sep`; the model fixes POSIX. -/
def osSep : Char := '/'

/-- Model of `relativePath.replace('/', os.sep)`. -/
def normSeps (p : PyStr) : PyStr := p.map (fun c => if c = '/' then osSep else c)

/-- Model of `str.split(sep)` for a one-character separator. -/
def splitChar (c : Char) : PyStr → List PyStr
  | [] => [[]]
  | x :: xs =>
    if x = c then [] :: splitChar c xs
    else
      match splitChar c xs with
      | [] => [[x]]
      | y :: ys => (x :: y) :: ys

/-- Model of `posixpath.join` with two arguments. -/
def joinP (a b : PyStr) : PyStr :=
  if b.head? = some '/' then b
  else if a = [] ∨ a.getLast? = some '/' then a ++ b
  else a ++ '/' :: b

/-- Model of `posixpath.normpath`: collapse `//`, drop `.` components,
resolve `..` where possible, preserving the POSIX one-or-two leading slash
convention. -/
def normpath (p : PyStr) : PyStr :=
  if p = [] then ['.']
  else
    let slashes : Nat :=
      if p.take 2 = ['/', '/'] ∧ p.take 3 ≠ ['/', '/', '/'] then 2
      else if p.head? = some '/' then 1 else 0
    let comps := splitChar '/' p
    let newComps := comps.foldl
      (fun acc comp =>
        if comp = [] ∨ comp = ['.'] then acc
        else if comp ≠ ['.', '.'] ∨ (slashes = 0 ∧ acc = []) ∨
            acc.getLast? = some ['.', '.'] then
          acc ++ [comp]
        else acc.dropLast) []
    let out := List.replicate slashes '/' ++ List.intercalate ['/'] newComps
    if out = [] then ['.'] else out

/-- True when the list consists of `/` only. -/
def allSlashes (l : PyStr) : Bool := l.all (· == '/')

/-- Model of `posixpath.dirname`. -/
def dirname (p : PyStr) : PyStr :=
  let head := (p.reverse.dropWhile (· != '/')).reverse
  if head ≠ [] ∧ allSlashes head = false then
    (head.reverse.dropWhile (· == '/')).reverse
  else head

/-- The `FileTask` dataclass (lines 108-112). -/
structure FileTask where
  filepath : PyStr
  expectedHash : PyStr
  relativePath : PyStr
deriving DecidableEq

/-- The per-line body of `_parseManifest`'s task loop (lines 482-496):
split at the first `*`, skip the line when there is none, otherwise strip
the two parts, normalize separators, and join to the manifest's directory. -/
def taskOfLine (mdir : PyStr) (line : PyStr) : Option FileTask :=
  match splitFirst line with
  | none => none
  | some hp =>
    some ⟨normpath (joinP mdir (normSeps (stripL hp.2))), stripL hp.1,
      normSeps (stripL hp.2)⟩

/-- Total variant of `taskOfLine` for stating order preservation; its value
on starless lines is irrelevant (they are filtered out). -/
def taskOfLineT (mdir line : PyStr) : FileTask := (taskOfLine mdir line).getD ⟨[], [], []⟩

/-- The task-building phase of `_parseManifest` on decoded lines. -/
def parseTasks (mdir : PyStr) (lines : List PyStr) : List FileTask :=
  (stage1 lines).filterMap (taskOfLine mdir)

/-- Outcome of one decoding attempt of the manifest file: the decoded lines,
a `UnicodeDecodeError`, or any other exception. -/
inductive ReadAttempt
  | ok (lines : List PyStr)
  | decodeErr
  | otherErr
deriving DecidableEq

/-- Model of `MainWindow._parseManifest` (lines 462-497): read with UTF-8;
on `UnicodeDecodeError` retry once with cp1252; any other failure (or a
failed retry) returns `None`.  The two attempts are summarised by their
outcomes.  Note the `rootFolder` parameter is accepted but never used —
tasks are resolved against `os.path.dirname(manifestPath)`. -/
def parseManifest (primary fallback : ReadAttempt)
    (manifestPath rootFolder : PyStr) : Option (List FileTask) :=
  match primary with
  | .ok lines => some (parseTasks (dirname manifestPath) lines)
  | .decodeErr =>
    match fallback with
    | .ok lines => some (parseTasks (dirname manifestPath) lines)
    | _ => none
  | .otherErr => none

/-- The summary dictionary built by `VerifierThread.run` (line 162): note it
has counters only for ok, failed, missing and error — none for cancelled.
The wall-clock `time` entry is not modelled. -/
structure Summary where
  ok : Nat
  failed : Nat
  missing : Nat
  error : Nat
  total : Nat
deriving DecidableEq

/-- What `future.result()` delivers for one task: the status code returned
by `_processFile`, or an unexpected exception propagating out of it. -/
inductive TaskRes
  | status (code : PyStr)
  | raised
deriving DecidableEq

/-- The counting statement `if statusCode and statusCode != "CANCELLED":
summary[statusCode.lower()] += 1` (lines 176-177); a `KeyError` on an
unknown key is swallowed by the surrounding `except Exception: pass`. -/
def addStatus (sm : Summary) (code : PyStr) : Summary :=
  if code = [] then sm
  else if code = cancelledS then sm
  else if toLowerS code = "ok".data then { sm with ok := sm.ok + 1 }
  else if toLowerS code = "failed".data then { sm with failed := sm.failed + 1 }
  else if toLowerS code = "missing".data then { sm with missing := sm.missing + 1 }
  else if toLowerS code = "error".data then { sm with error := sm.error + 1 }
  else sm

/-- The `as_completed` collection loop of `VerifierThread.run` (lines
168-179): for each completed future, first re-read `isRunning` (read number
`i` of the collection loop) and break when it is false, else count the
result, skipping tasks that raised (`except Exception: pass`). -/
def runAggGo (brk : Option Nat) : Nat → Summary → List TaskRes → Summary
  | i, sm, [] => sm
  | i, sm, r :: rs =>
    if isRun brk i = false then sm
    else
      match r with
      | .raised => runAggGo brk (i + 1) sm rs
      | .status code => runAggGo brk (i + 1) (addStatus sm code) rs

/-- Model of `VerifierThread.run` (lines 161-184): the summary emitted by
`allFinished` for a run whose futures complete with `results` (in
completion order) and whose collection loop first observes a cleared flag at
read `brk`. -/
def runAggregate (brk : Option Nat) (results : List TaskRes) : Summary :=
  runAggGo brk 0 ⟨0, 0, 0, 0, results.length⟩ results

/-! ### Helper lemmas about the digest encoding -/

theorem bytesHex_length (l : List Nat) : (bytesHex l).length = 2 * l.length := by
  induction l with
  | nil => rfl
  | cons b bs ih => simp [bytesHex, ih]; omega

theorem hexChar_mem (n : Nat) : hexChar n ∈ hexDigits := by
  unfold hexChar List.getD
  cases h : hexDigits.get? n with
  | none => simp [h]; decide
  | some c => simp [h]; exact List.get?_mem h

theorem bytesHex_mem (l : List Nat) : ∀ c ∈ bytesHex l, c ∈ hexDigits := by
  induction l with
  | nil => intro c hc; cases hc
  | cons b bs ih =>
    intro c hc
    simp only [bytesHex, List.mem_cons] at hc
    rcases hc with h | h | h
    · rw [h]; exact hexChar_mem _
    · rw [h]; exact hexChar_mem _
    · exact ih c h

theorem md5Hex_length (m : List Nat) : (md5Hex m).length = 32 := by
  unfold md5Hex
  rw [bytesHex_length]
  simp [wordLEBytes]

theorem md5Hex_mem (m : List Nat) : ∀ c ∈ md5Hex m, c ∈ hexDigits := by
  unfold md5Hex
  exact bytesHex_mem _

theorem md5Hex_ne_cancelled (m : List Nat) : md5Hex m ≠ cancelledS := by
  intro h
  have := md5Hex_length m
  rw [h] at this
  simp [cancelledS] at this

theorem md5Hex_ne_ioError (m : List Nat) : md5Hex m ≠ ioErrorS := by
  intro h
  have := md5Hex_length m
  rw [h] at this
  simp [ioErrorS] at this

/-! ### Helper lemmas about the chunk decomposition -/

theorem chunksOf_length_le (bs : Nat) :
    ∀ (f : Nat) (l : List Nat), ∀ ch ∈ chunksOf bs f l, ch.length ≤ bs := by
  intro f
  induction f with
  | zero =>
    intro l ch hch
    cases l <;> simp [chunksOf] at hch
  | succ f ih =>
    intro l ch hch
    cases l with
    | nil => simp [chunksOf] at hch
    | cons x xs =>
      rw [chunksOf] at hch
      by_cases h0 : bs = 0
      · simp [h0] at hch
      · simp only [h0, if_false, List.mem_cons] at hch
        rcases hch with h | h
        · rw [h]; simpa using List.length_take_le bs (x :: xs)
        · exact ih _ _ h

theorem chunksOf_flatten (bs : Nat) (hbs : 0 < bs) :
    ∀ (f : Nat) (l : List Nat), l.length ≤ f → (chunksOf bs f l).flatten = l := by
  intro f
  induction f with
  | zero =>
    intro l hl
    have : l = [] := List.eq_nil_of_length_eq_zero (Nat.le_zero.mp hl)
    simp [this, chunksOf]
  | succ f ih =>
    intro l hl
    cases l with
    | nil => simp [chunksOf]
    | cons x xs =>
      rw [chunksOf]
      have h0 : ¬ bs = 0 := Nat.pos_iff_ne_zero.mp hbs
      have hl' : xs.length + 1 ≤ f + 1 := by simpa using hl
      simp only [h0, if_false]
      rw [List.flatten_cons,
        ih ((x :: xs).drop bs)
          (by simp only [List.length_drop, List.length_cons]; omega),
        List.take_append_drop]

theorem chunks_flatten (bs : Nat) (hbs : 0 < bs) (l : List Nat) :
    (chunks bs l).flatten = l :=
  chunksOf_flatten bs hbs l.length l le_rfl

theorem chunks_flatten_length_le (bs : Nat) (l : List Nat) :
    (chunks bs l).flatten.length ≤ l.length := by
  rcases Nat.eq_zero_or_pos bs with h | h
  · subst h
    cases l <;> simp [chunks, chunksOf]
  · rw [chunks_flatten bs h]

/-! ### Helper lemmas about the read loop -/

theorem chain_append_one (invs : List Int) (v : Int)
    (hc : List.Chain' (· < ·) invs)
    (hl : invs = [] ∨ ∃ x, invs.getLast? = some x ∧ x < v) :
    List.Chain' (· < ·) (invs ++ [v]) := by
  rcases hl with h | ⟨x, hx, hxv⟩
  · simp [h]
  · refine List.Chain'.append hc (by simp) ?_
    intro a ha b hb
    rw [hx] at ha
    simp at ha hb
    omega

theorem md5Loop_result_cases (total : Nat) (hasCb : Bool) (k faultAt : Option Nat) :
    ∀ (chs : List (List Nat)) (j t consumed : Nat) (lastPct : Int)
      (acc : List Nat) (invs emits : List Int),
      (md5Loop total hasCb k faultAt j t consumed lastPct acc invs emits chs).result
          = some cancelledS ∨
      (md5Loop total hasCb k faultAt j t consumed lastPct acc invs emits chs).result
          = some ioErrorS ∨
      ∃ m, (md5Loop total hasCb k faultAt j t consumed lastPct acc invs emits chs).result
          = some (md5Hex m) := by
  intro chs
  induction chs with
  | nil =>
    intro j t consumed lastPct acc invs emits
    rw [md5Loop]
    split
    · exact Or.inl rfl
    · split
      · exact Or.inr (Or.inl rfl)
      · split
        · exact Or.inr (Or.inr ⟨acc, rfl⟩)
        · exact Or.inr (Or.inr ⟨acc, rfl⟩)
  | cons data rest ih =>
    intro j t consumed lastPct acc invs emits
    rw [md5Loop]
    split
    · exact Or.inl rfl
    · split
      · exact Or.inr (Or.inl rfl)
      · split
        · split
          · exact ih _ _ _ _ _ _ _
          · exact ih _ _ _ _ _ _ _
        · exact ih _ _ _ _ _ _ _

theorem md5Loop_none_result (total : Nat) (hasCb : Bool) :
    ∀ (chs : List (List Nat)) (j t consumed : Nat) (lastPct : Int)
      (acc : List Nat) (invs emits : List Int),
      (md5Loop total hasCb none none j t consumed lastPct acc invs emits chs).result
        = some (md5Hex (acc ++ chs.flatten)) := by
  intro chs
  induction chs with
  | nil =>
    intro j t consumed lastPct acc invs emits
    rw [md5Loop]
    simp only [isRun, Bool.true_eq_false, if_false, reduceCtorEq]
    split
    · simp
    · simp
  | cons data rest ih =>
    intro j t consumed lastPct acc invs emits
    rw [md5Loop]
    simp only [isRun, Bool.true_eq_false, if_false, reduceCtorEq]
    split
    · split
      · rw [ih]; simp
      · rw [ih]; simp
    · rw [ih]; simp

theorem md5Loop_invs_chain (total : Nat) (hasCb : Bool) (k faultAt : Option Nat) :
    ∀ (chs : List (List Nat)) (j t consumed : Nat) (lastPct : Int)
      (acc : List Nat) (invs emits : List Int),
      List.Chain' (· < ·) invs →
      (invs = [] ∨ invs.getLast? = some lastPct) →
      List.Chain' (· < ·)
        (md5Loop total hasCb k faultAt j t consumed lastPct acc invs emits chs).invs := by
  intro chs
  induction chs with
  | nil =>
    intro j t consumed lastPct acc invs emits hc hl
    rw [md5Loop]
    split
    · exact hc
    · split
      · exact hc
      · split
        case isTrue h =>
          refine chain_append_one invs 100 hc ?_
          rcases hl with h0 | h0
          · exact Or.inl h0
          · exact Or.inr ⟨lastPct, h0, h.2⟩
        case isFalse h => exact hc
  | cons data rest ih =>
    intro j t consumed lastPct acc invs emits hc hl
    rw [md5Loop]
    split
    · exact hc
    · split
      · exact hc
      · split
        · split
          case isTrue hcur =>
            refine ih _ _ _ _ _ _ _ ?_ ?_
            · refine chain_append_one invs _ hc ?_
              rcases hl with h0 | h0
              · exact Or.inl h0
              · exact Or.inr ⟨lastPct, h0, hcur⟩
            · right
              exact List.getLast?_concat _
          case isFalse hcur => exact ih _ _ _ _ _ _ _ hc hl
        · exact ih _ _ _ _ _ _ _ hc hl

theorem md5Loop_none_last100 (total : Nat) :
    ∀ (chs : List (List Nat)) (j t consumed : Nat) (lastPct : Int)
      (acc : List Nat) (invs emits : List Int),
      (invs = [] ∧ lastPct = -1 ∨ invs.getLast? = some lastPct) →
      lastPct ≤ 100 →
      consumed + chs.flatten.length ≤ total →
      (md5Loop total true none none j t consumed lastPct acc invs emits chs).invs.getLast?
        = some 100 := by
  intro chs
  induction chs with
  | nil =>
    intro j t consumed lastPct acc invs emits hl hle hsum
    rw [md5Loop]
    simp only [isRun, Bool.true_eq_false, if_false, reduceCtorEq]
    split
    case isTrue h => exact List.getLast?_concat _
    case isFalse h =>
      have h100 : lastPct = 100 := by
        have : ¬ lastPct < 100 := fun hlt => h ⟨by trivial, hlt⟩
        omega
      rcases hl with ⟨_, hm1⟩ | hlast
      · omega
      · rw [← h100]; exact hlast
  | cons data rest ih =>
    intro j t consumed lastPct acc invs emits hl hle hsum
    rw [md5Loop]
    simp only [isRun, Bool.true_eq_false, if_false, reduceCtorEq]
    have hsum' : consumed + data.length + rest.flatten.length ≤ total := by
      simp only [List.flatten_cons, List.length_append] at hsum
      omega
    split
    case isTrue hcb =>
      have htot : 0 < total := hcb.2
      have hcur : ((consumed + data.length) * 100 / total : Nat) ≤ 100 := by
        have h1 : consumed + data.length ≤ total := by omega
        calc (consumed + data.length) * 100 / total ≤ total * 100 / total :=
              Nat.div_le_div_right (Nat.mul_le_mul_right 100 h1)
          _ = 100 := Nat.mul_div_cancel_left 100 htot
      split
      case isTrue hlt =>
        refine ih _ _ _ _ _ _ _ (Or.inr (List.getLast?_concat _)) ?_ hsum'
        exact_mod_cast hcur
      case isFalse hlt => exact ih _ _ _ _ _ _ _ hl hle hsum'
    case isFalse hcb => exact ih _ _ _ _ _ _ _ hl hle hsum'

theorem md5Loop_consumed_le (total : Nat) (hasCb : Bool) (faultAt : Option Nat)
    (cutoff bs : Nat) :
    ∀ (chs : List (List Nat)) (j t consumed : Nat) (lastPct : Int)
      (acc : List Nat) (invs emits : List Int),
      (∀ ch ∈ chs, ch.length ≤ bs) →
      (md5Loop total hasCb (some cutoff) faultAt j t consumed lastPct acc invs
          emits chs).consumed
        ≤ consumed + (cutoff - t) * bs := by
  intro chs
  induction chs with
  | nil =>
    intro j t consumed lastPct acc invs emits hch
    rw [md5Loop]
    split
    · exact Nat.le_add_right _ _
    · split
      · exact Nat.le_add_right _ _
      · split
        · exact Nat.le_add_right _ _
        · exact Nat.le_add_right _ _
  | cons data rest ih =>
    intro j t consumed lastPct acc invs emits hch
    have hdl : data.length ≤ bs := hch data (by simp)
    have hrest : ∀ ch ∈ rest, ch.length ≤ bs := fun ch h => hch ch (by simp [h])
    rw [md5Loop]
    split
    case isTrue h => exact Nat.le_add_right _ _
    case isFalse h =>
      have ht : t < cutoff := by
        simp [isRun] at h
        exact h
      have hsplit : cutoff - t = (cutoff - (t + 1)) + 1 := by omega
      have hmul : (cutoff - t) * bs = (cutoff - (t + 1)) * bs + bs := by
        rw [hsplit, Nat.succ_mul]
      have hmul2 : (cutoff - (t + 2)) * bs ≤ (cutoff - (t + 1)) * bs :=
        Nat.mul_le_mul_right bs (by omega)
      split
      · exact Nat.le_add_right _ _
      · split
        · split
          · refine le_trans (ih _ _ _ _ _ _ _ hrest) ?_
            calc consumed + data.length + (cutoff - (t + 2)) * bs
                ≤ consumed + bs + (cutoff - (t + 1)) * bs :=
                  Nat.add_le_add (Nat.add_le_add_left hdl consumed) hmul2
              _ = consumed + (cutoff - t) * bs := by rw [hmul]; ring
          · refine le_trans (ih _ _ _ _ _ _ _ hrest) ?_
            calc consumed + data.length + (cutoff - (t + 1)) * bs
                ≤ consumed + bs + (cutoff - (t + 1)) * bs :=
                  Nat.add_le_add_right (Nat.add_le_add_left hdl consumed) _
              _ = consumed + (cutoff - t) * bs := by rw [hmul]; ring
        · refine le_trans (ih _ _ _ _ _ _ _ hrest) ?_
          calc consumed + data.length + (cutoff - (t + 1)) * bs
              ≤ consumed + bs + (cutoff - (t + 1)) * bs :=
                Nat.add_le_add_right (Nat.add_le_add_left hdl consumed) _
            _ = consumed + (cutoff - t) * bs := by rw [hmul]; ring

theorem md5Loop_cancelled_or_consumed (total : Nat) (hasCb : Bool) (k : Option Nat) :
    ∀ (chs : List (List Nat)) (j t consumed : Nat) (lastPct : Int)
      (acc : List Nat) (invs emits : List Int),
      (md5Loop total hasCb k none j t consumed lastPct acc invs emits chs).result
          = some cancelledS ∨
      (md5Loop total hasCb k none j t consumed lastPct acc invs emits chs).consumed
          = consumed + chs.flatten.length := by
  intro chs
  induction chs with
  | nil =>
    intro j t consumed lastPct acc invs emits
    rw [md5Loop]
    split
    · exact Or.inl rfl
    · split
      case isTrue h => cases h
      case isFalse h =>
        split
        · exact Or.inr (by simp)
        · exact Or.inr (by simp)
  | cons data rest ih =>
    intro j t consumed lastPct acc invs emits
    rw [md5Loop]
    split
    · exact Or.inl rfl
    · split
      case isTrue h => cases h
      case isFalse h =>
        have hflat : (data :: rest).flatten.length
            = data.length + rest.flatten.length := by
          simp [List.flatten_cons]
        split
        · split
          · rcases ih (j + 1) (t + 2) (consumed + data.length) _ _ _ _ with h | h
            · exact Or.inl h
            · exact Or.inr (by rw [h, hflat]; omega)
          · rcases ih (j + 1) (t + 1) (consumed + data.length) _ _ _ _ with h | h
            · exact Or.inl h
            · exact Or.inr (by rw [h, hflat]; omega)
        · rcases ih (j + 1) (t + 1) (consumed + data.length) _ _ _ _ with h | h
          · exact Or.inl h
          · exact Or.inr (by rw [h, hflat]; omega)

/-! ### Helper lemmas about the manifest parser -/

theorem splitFirst_eq_none_iff (l : PyStr) : splitFirst l = none ↔ '*' ∉ l := by
  induction l with
  | nil => simp [splitFirst]
  | cons c rest ih =>
    rw [splitFirst, List.mem_cons]
    by_cases hc : c = '*'
    · simp [hc]
    · cases h : splitFirst rest with
      | none =>
        have hrest : '*' ∉ rest := ih.mp h
        simp only [hc, if_false, h]
        constructor
        · intro _
          push_neg
          exact ⟨fun he => hc he.symm, hrest⟩
        · intro _
          trivial
      | some ab =>
        have hrest : '*' ∈ rest := by
          by_contra hr
          rw [← ih] at hr
          rw [h] at hr
          cases hr
        simp only [hc, if_false, h]
        constructor
        · intro hcon
          cases hcon
        · intro hmem
          exact absurd (Or.inr hrest) hmem

theorem splitFirst_append (H P : PyStr) (h : '*' ∉ H) :
    splitFirst (H ++ '*' :: P) = some (H, P) := by
  induction H with
  | nil => simp [splitFirst]
  | cons c hs ih =>
    have hc : c ≠ '*' := fun he => h (by simp [he])
    have hs' : '*' ∉ hs := fun he => h (by simp [he])
    rw [List.cons_append, splitFirst, ih hs']
    simp [hc]

theorem contains_star_iff (s : PyStr) : s.contains '*' = true ↔ '*' ∈ s := by
  simp [List.contains]

theorem taskOfLine_eq_none_iff (mdir line : PyStr) :
    taskOfLine mdir line = none ↔ '*' ∉ line := by
  rw [← splitFirst_eq_none_iff]
  unfold taskOfLine
  cases h : splitFirst line with
  | none => simp [h]
  | some ab => simp [h]

theorem filterMap_taskOfLine (mdir : PyStr) :
    ∀ ls : List PyStr,
      ls.filterMap (taskOfLine mdir)
        = (ls.filter (fun s => s.contains '*')).map (taskOfLineT mdir) := by
  intro ls
  induction ls with
  | nil => rfl
  | cons s rest ih =>
    cases h : taskOfLine mdir s with
    | none =>
      have hnot : '*' ∉ s := (taskOfLine_eq_none_iff mdir s).mp h
      simp [List.filterMap_cons, List.filter_cons, h, hnot, ih]
    | some task =>
      have hmem : '*' ∈ s := by
        by_contra hc
        rw [← taskOfLine_eq_none_iff mdir s] at hc
        rw [h] at hc
        cases hc
      have ht : taskOfLineT mdir s = task := by
        unfold taskOfLineT
        rw [h]
        rfl
      simp [List.filterMap_cons, List.filter_cons, h, hmem, ih, ht]

theorem parseTasks_characterization (mdir : PyStr) (lines : List PyStr) :
    parseTasks mdir lines
      = ((lines.map stripL).filter (fun s => s.contains '*' && keepLine s)).map
          (taskOfLineT mdir) := by
  unfold parseTasks stage1
  rw [filterMap_taskOfLine, List.filter_filter]

theorem stripL_eq_self_parts (l : PyStr) (h : stripL l = l) :
    l.dropWhile isWsChar = l ∧ l.reverse.dropWhile isWsChar = l.reverse := by
  have hsuf : l.dropWhile isWsChar <:+ l := List.dropWhile_suffix _
  have hlen1 : (stripL l).length ≤ (l.dropWhile isWsChar).length := by
    unfold stripL
    rw [List.length_reverse]
    calc ((l.dropWhile isWsChar).reverse.dropWhile isWsChar).length
        ≤ (l.dropWhile isWsChar).reverse.length :=
          ((l.dropWhile isWsChar).reverse.dropWhile_suffix isWsChar).length_le
      _ = (l.dropWhile isWsChar).length := List.length_reverse _
  have hlen2 : (l.dropWhile isWsChar).length = l.length := by
    have h1 : (l.dropWhile isWsChar).length ≤ l.length := hsuf.length_le
    have h2 : l.length ≤ (l.dropWhile isWsChar).length := by
      calc l.length = (stripL l).length := by rw [h]
        _ ≤ (l.dropWhile isWsChar).length := hlen1
    omega
  have hdrop : l.dropWhile isWsChar = l := hsuf.eq_of_length hlen2
  refine ⟨hdrop, ?_⟩
  have hstrip : stripL l = (l.reverse.dropWhile isWsChar).reverse := by
    unfold stripL
    rw [hdrop]
  have : (l.reverse.dropWhile isWsChar).reverse = l := by rw [← hstrip, h]
  calc l.reverse.dropWhile isWsChar
      = ((l.reverse.dropWhile isWsChar).reverse).reverse := (List.reverse_reverse _).symm
    _ = l.reverse := by rw [this]

theorem stripL_eq_self_of_parts (l : PyStr)
    (h1 : l.dropWhile isWsChar = l) (h2 : l.reverse.dropWhile isWsChar = l.reverse) :
    stripL l = l := by
  unfold stripL
  rw [h1, h2, List.reverse_reverse]

theorem dropWhile_eq_self_append (l m : PyStr) (hl : l ≠ [])
    (hh : l.dropWhile isWsChar = l) :
    (l ++ m).dropWhile isWsChar = l ++ m := by
  cases l with
  | nil => exact absurd rfl hl
  | cons c cs =>
    rw [List.cons_append]
    rw [List.dropWhile_cons] at hh ⊢
    by_cases hc : isWsChar c = true
    · exfalso
      simp only [hc, if_true] at hh
      have hlen := congrArg List.length hh
      simp at hlen
      have hle : (cs.dropWhile isWsChar).length ≤ cs.length :=
        (cs.dropWhile_suffix isWsChar).length_le
      omega
    · simp only [Bool.not_eq_true] at hc
      simp [hc]

theorem stripL_append_star (H P : PyStr)
    (hH : stripL H = H) (hP : stripL P = P) :
    stripL (H ++ '*' :: P) = H ++ '*' :: P := by
  obtain ⟨hd1, _⟩ := stripL_eq_self_parts H hH
  obtain ⟨_, hp2⟩ := stripL_eq_self_parts P hP
  apply stripL_eq_self_of_parts
  · cases H with
    | nil =>
      rw [List.nil_append, List.dropWhile_cons]
      simp [isWsChar]
    | cons c cs => exact dropWhile_eq_self_append (c :: cs) ('*' :: P) (by simp) hd1
  · rw [List.reverse_append, List.reverse_cons]
    by_cases hPn : P = []
    · subst hPn
      simp only [List.reverse_nil, List.nil_append]
      rw [List.cons_append, List.dropWhile_cons]
      simp [isWsChar]
    · rw [List.append_assoc]
      refine dropWhile_eq_self_append P.reverse (['*'] ++ H.reverse) ?_ hp2
      simpa using hPn

theorem keepLine_append_star (H P : PyStr) (hsemi : H.head? ≠ some ';') :
    keepLine (H ++ '*' :: P) = true := by
  cases H with
  | nil =>
    rw [List.nil_append]
    simp [keepLine]
  | cons c cs =>
    have hc : c ≠ ';' := by
      intro he
      exact hsemi (by simp [he])
    rw [List.cons_append]
    simp [keepLine, hc]

/-! ### Helper lemmas about the run aggregation -/

theorem addStatus_ok (sm : Summary) : addStatus sm okS = { sm with ok := sm.ok + 1 } := rfl

theorem addStatus_failed (sm : Summary) :
    addStatus sm failedS = { sm with failed := sm.failed + 1 } := rfl

theorem addStatus_missing (sm : Summary) :
    addStatus sm missingS = { sm with missing := sm.missing + 1 } := rfl

theorem addStatus_error (sm : Summary) :
    addStatus sm errorS = { sm with error := sm.error + 1 } := rfl

theorem addStatus_cancelled (sm : Summary) : addStatus sm cancelledS = sm := rfl

theorem addStatus_total (sm : Summary) (code : PyStr) :
    (addStatus sm code).total = sm.total := by
  unfold addStatus
  repeat (first | rfl | split)

theorem runAggGo_total (brk : Option Nat) :
    ∀ (rs : List TaskRes) (i : Nat) (sm : Summary),
      (runAggGo brk i sm rs).total = sm.total := by
  intro rs
  induction rs with
  | nil => intro i sm; rfl
  | cons r rest ih =>
    intro i sm
    cases r with
    | raised =>
      rw [runAggGo]
      split
      · rfl
      · exact ih _ _
    | status code =>
      rw [runAggGo]
      split
      · rfl
      · rw [ih]; exact addStatus_total _ _

theorem runAggGo_none_index (rs : List TaskRes) :
    ∀ (i i' : Nat) (sm : Summary), runAggGo none i sm rs = runAggGo none i' sm rs := by
  induction rs with
  | nil => intro i i' sm; rfl
  | cons r rest ih =>
    intro i i' sm
    cases r with
    | raised =>
      rw [runAggGo, runAggGo]
      simp only [isRun, Bool.true_eq_false, if_false, reduceCtorEq]
      exact ih _ _ _
    | status code =>
      rw [runAggGo, runAggGo]
      simp only [isRun, Bool.true_eq_false, if_false, reduceCtorEq]
      exact ih _ _ _

theorem runAggGo_skip_raised (rs1 : List TaskRes) :
    ∀ (rs2 : List TaskRes) (i : Nat) (sm : Summary),
      runAggGo none i sm (rs1 ++ .raised :: rs2) = runAggGo none i sm (rs1 ++ rs2) := by
  induction rs1 with
  | nil =>
    intro rs2 i sm
    rw [List.nil_append, List.nil_append, runAggGo]
    simp only [isRun, Bool.true_eq_false, if_false, reduceCtorEq]
    exact runAggGo_none_index rs2 (i + 1) i sm
  | cons r rest ih =>
    intro rs2 i sm
    cases r with
    | raised =>
      rw [List.cons_append, List.cons_append, runAggGo, runAggGo]
      simp only [isRun, Bool.true_eq_false, if_false, reduceCtorEq]
      exact ih _ _ _
    | status code =>
      rw [List.cons_append, List.cons_append, runAggGo, runAggGo]
      simp only [isRun, Bool.true_eq_false, if_false, reduceCtorEq]
      exact ih _ _ _

theorem runAggGo_counts_ignore_total (rs : List TaskRes) :
    ∀ (i : Nat) (sm : Summary) (x : Nat),
      runAggGo none i { sm with total := x } rs
        = { runAggGo none i sm rs with total := x } := by
  induction rs with
  | nil => intro i sm x; rfl
  | cons r rest ih =>
    intro i sm x
    cases r with
    | raised =>
      rw [runAggGo, runAggGo]
      simp only [isRun, Bool.true_eq_false, if_false, reduceCtorEq]
      exact ih _ _ _
    | status code =>
      rw [runAggGo, runAggGo]
      simp only [isRun, Bool.true_eq_false, if_false, reduceCtorEq]
      rw [← ih]
      congr 1
      unfold addStatus
      repeat (first | rfl | split)

theorem runAggGo_sum (rs : List TaskRes) :
    ∀ (i : Nat) (sm : Summary),
      (∀ r ∈ rs, r = .status okS ∨ r = .status failedS ∨
        r = .status missingS ∨ r = .status errorS) →
      (runAggGo none i sm rs).ok + (runAggGo none i sm rs).failed +
          (runAggGo none i sm rs).missing + (runAggGo none i sm rs).error
        = sm.ok + sm.failed + sm.missing + sm.error + rs.length := by
  induction rs with
  | nil => intro i sm _; rfl
  | cons r rest ih =>
    intro i sm hall
    have hr := hall r (by simp)
    have hrest : ∀ x ∈ rest, x = .status okS ∨ x = .status failedS ∨
        x = .status missingS ∨ x = .status errorS := fun x hx => hall x (by simp [hx])
    rcases hr with h | h | h | h <;> rw [h] <;>
      rw [runAggGo] <;>
      simp only [isRun, Bool.true_eq_false, if_false, reduceCtorEq, List.length_cons]
    · rw [ih (i + 1) _ hrest, addStatus_ok]
      dsimp only
      omega
    · rw [ih (i + 1) _ hrest, addStatus_failed]
      dsimp only
      omega
    · rw [ih (i + 1) _ hrest, addStatus_missing]
      dsimp only
      omega
    · rw [ih (i + 1) _ hrest, addStatus_error]
      dsimp only
      omega

/-! ### Status label facts -/

theorem finishLabel_missing : finishLabel missingS = missingS := rfl

theorem finishLabel_ok : finishLabel okS = okS := rfl

theorem finishLabel_failed : finishLabel failedS = failedS := rfl

theorem finishLabel_error : finishLabel errorS = ioErrLabelS := rfl

/-! ### The claims -/

/-- C10: `calculateMd5` returns exactly one of `None` (file not found), the
sentinel `"CANCELLED"`, the sentinel `"IO_ERROR"`, or a 32-character
lowercase hexadecimal digest string; the sentinels are not 32 characters
long, so they can never collide with a digest and the caller's string
dispatch is unambiguous. -/
theorem claim10_result_shape (fs : FileSys) (blockSize : Nat) (hasCb : Bool)
    (k : Option Nat) (t0 : Nat) :
    ((calculateMd5 fs blockSize hasCb k t0).result = none ∨
      (calculateMd5 fs blockSize hasCb k t0).result = some cancelledS ∨
      (calculateMd5 fs blockSize hasCb k t0).result = some ioErrorS ∨
      ∃ m, (calculateMd5 fs blockSize hasCb k t0).result = some (md5Hex m) ∧
        (md5Hex m).length = 32 ∧ ∀ c ∈ md5Hex m, c ∈ hexDigits) ∧
    cancelledS.length ≠ 32 ∧ ioErrorS.length ≠ 32 := by
  refine ⟨?_, by decide, by decide⟩
  cases fs with
  | absent => exact Or.inl rfl
  | vanished => exact Or.inl rfl
  | openFault => exact Or.inr (Or.inr (Or.inl rfl))
  | present bytes faultAt =>
    simp only [calculateMd5]
    rcases md5Loop_result_cases bytes.length hasCb k faultAt
        (chunks blockSize bytes) 0 t0 0 (-1) [] [] [] with h | h | ⟨m, h⟩
    · exact Or.inr (Or.inl h)
    · exact Or.inr (Or.inr (Or.inl h))
    · exact Or.inr (Or.inr (Or.inr ⟨m, h, md5Hex_length m, md5Hex_mem m⟩))

theorem calculateMd5_none_digest (bytes : List Nat) :
    (calculateMd5 (.present bytes none) 655360 true none 1).result
      = some (md5Hex bytes) := by
  simp only [calculateMd5]
  rw [md5Loop_none_result]
  rw [List.nil_append, chunks_flatten 655360 (by norm_num)]

/-- C9: for a present fault-free file verified without cancellation, the
caller assigns status OK exactly when the lowercased computed digest equals
the lowercased expected digest, and FAILED otherwise; in particular a task
expecting `d41d8cd98f00b204e9800998ecf8427e` over an empty file gets OK. -/
theorem claim9_ok_iff_digest_match (bytes : List Nat) (expected : PyStr) :
    ((processFile (.present bytes none) expected none).status = okS ↔
      toLowerS (md5Hex bytes) = toLowerS expected) ∧
    ((processFile (.present bytes none) expected none).status = okS ∨
      (processFile (.present bytes none) expected none).status = failedS) ∧
    (processFile (.present [] none)
      "d41d8cd98f00b204e9800998ecf8427e".data none).status = okS := by
  have hres := calculateMd5_none_digest bytes
  have hne1 := md5Hex_ne_cancelled bytes
  have hne2 := md5Hex_ne_ioError bytes
  refine ⟨?_, ?_, by decide⟩
  · simp only [processFile, isRun, Bool.true_eq_false, if_false, reduceCtorEq, hres,
      Option.some.injEq, hne1, hne2, or_self]
    by_cases hcmp : toLowerS (md5Hex bytes) = toLowerS expected
    · simp [hcmp]
    · simp [hcmp]
      decide
  · simp only [processFile, isRun, Bool.true_eq_false, if_false, reduceCtorEq, hres,
      Option.some.injEq, hne1, hne2, or_self]
    by_cases hcmp : toLowerS (md5Hex bytes) = toLowerS expected
    · simp [hcmp]
    · simp [hcmp]

/-- C6: with a progress callback, the percentages handed to the callback in
one `calculateMd5` run form a strictly increasing sequence, and when the run
is neither cancelled nor hits a read fault the last reported value is
exactly 100 and a digest is returned. -/
theorem claim6_progress_strict_and_final (bytes : List Nat)
    (faultAt : Option Nat) (bs : Nat) (k : Option Nat) (t0 : Nat) :
    List.Chain' (· < ·) (calculateMd5 (.present bytes faultAt) bs true k t0).invs ∧
    (k = none → faultAt = none →
      (calculateMd5 (.present bytes faultAt) bs true k t0).invs.getLast? = some 100 ∧
      ∃ m, (calculateMd5 (.present bytes faultAt) bs true k t0).result
        = some (md5Hex m)) := by
  constructor
  · simp only [calculateMd5]
    exact md5Loop_invs_chain bytes.length true k faultAt (chunks bs bytes)
      0 t0 0 (-1) [] [] [] List.chain'_nil (Or.inl rfl)
  · intro hk hf
    subst hk
    subst hf
    constructor
    · simp only [calculateMd5]
      refine md5Loop_none_last100 bytes.length (chunks bs bytes)
        0 t0 0 (-1) [] [] [] (Or.inl ⟨rfl, rfl⟩) (by norm_num) ?_
      simpa using chunks_flatten_length_le bs bytes
    · simp only [calculateMd5]
      rw [md5Loop_none_result]
      exact ⟨_, rfl⟩

/-- Witness for C6 at a concrete two-byte file read in one-byte chunks. -/
theorem claim6_witness :
    List.Chain' (· < ·) (calculateMd5 (.present [1, 2] none) 1 true none 0).invs ∧
    (calculateMd5 (.present [1, 2] none) 1 true none 0).invs.getLast? = some 100 :=
  ⟨(claim6_progress_strict_and_final [1, 2] none 1 none 0).1,
   ((claim6_progress_strict_and_final [1, 2] none 1 none 0).2 rfl rfl).1⟩

/-- C5: once the token is cancelled at flag read `cutoff`, a `calculateMd5`
call whose reads start at `t0` consumes at most `(cutoff - t0) * blockSize`
bytes; if the file is longer than that (and fault-free, with a positive
block size) the call returns the CANCELLED sentinel; and a task that
observes cancellation at its entry check returns CANCELLED without opening
its file and without emitting any event. -/
theorem claim5_cancellation (bytes : List Nat) (faultAt : Option Nat)
    (bs cutoff t0 : Nat) (hasCb : Bool) (fs : FileSys) (expected : PyStr)
    (k : Option Nat) :
    (calculateMd5 (.present bytes faultAt) bs hasCb (some cutoff) t0).consumed
        ≤ (cutoff - t0) * bs ∧
    (faultAt = none → 0 < bs → (cutoff - t0) * bs < bytes.length →
      (calculateMd5 (.present bytes faultAt) bs hasCb (some cutoff) t0).result
        = some cancelledS) ∧
    (isRun k 0 = false → processFile fs expected k = ⟨cancelledS, [], false⟩) := by
  refine ⟨?_, ?_, ?_⟩
  · simp only [calculateMd5]
    have h := md5Loop_consumed_le bytes.length hasCb faultAt cutoff bs
      (chunks bs bytes) 0 t0 0 (-1) [] [] []
      (chunksOf_length_le bs bytes.length bytes)
    simpa using h
  · intro hf hbs hlt
    subst hf
    simp only [calculateMd5]
    rcases md5Loop_cancelled_or_consumed bytes.length hasCb (some cutoff)
        (chunks bs bytes) 0 t0 0 (-1) [] [] [] with h | h
    · exact h
    · exfalso
      have hle := md5Loop_consumed_le bytes.length hasCb none cutoff bs
        (chunks bs bytes) 0 t0 0 (-1) [] [] []
        (chunksOf_length_le bs bytes.length bytes)
      rw [h] at hle
      rw [chunks_flatten bs hbs] at hle
      omega
  · intro h0
    unfold processFile
    rw [if_pos h0]

/-- Witness for C5: a three-byte file in one-byte chunks cancelled at the
third flag read is CANCELLED mid-stream, and a task cancelled before its
entry check emits nothing and never opens its file. -/
theorem claim5_witness :
    (calculateMd5 (.present [0, 0, 0] none) 1 true (some 2) 0).result
        = some cancelledS ∧
    processFile (.present [0, 0, 0] none) "ab".data (some 0)
        = ⟨cancelledS, [], false⟩ :=
  ⟨(claim5_cancellation [0, 0, 0] none 1 2 0 true .absent [] (some 0)).2.1
      rfl (by decide) (by decide),
   (claim5_cancellation [0, 0, 0] none 1 2 0 true (.present [0, 0, 0] none)
      "ab".data (some 0)).2.2 (by decide)⟩

/-- Counterexample to C3 as stated: a task that observes cancellation at its
entry check is assigned the terminal status CANCELLED but emits no
`Finished` event at all, so "exactly one Finished event per task" fails. -/
theorem claim3_counterexample :
    (processFile (.present [] none) "ab".data (some 0)).status = cancelledS ∧
    (processFile (.present [] none) "ab".data (some 0)).events = [] := by decide

/-- C3 (amended): every task is assigned exactly one terminal status among
OK, FAILED, MISSING, ERROR, CANCELLED; a task with a non-CANCELLED status
emits `Started`, then its `Progress` events, then exactly one `Finished`
carrying that status's display label; a CANCELLED task emits no `Finished`
at all — its trace is empty or `Started` followed only by `Progress`. -/
theorem claim3_amended (fs : FileSys) (expected : PyStr) (k : Option Nat) :
    ((processFile fs expected k).status = okS ∨
      (processFile fs expected k).status = failedS ∨
      (processFile fs expected k).status = missingS ∨
      (processFile fs expected k).status = errorS ∨
      (processFile fs expected k).status = cancelledS) ∧
    ((processFile fs expected k).status ≠ cancelledS →
      ∃ ps : List Int, (processFile fs expected k).events
        = Event.started :: (ps.map Event.progress ++
            [Event.finished (finishLabel (processFile fs expected k).status)])) ∧
    ((processFile fs expected k).status = cancelledS →
      (processFile fs expected k).events = [] ∨
      ∃ ps : List Int, (processFile fs expected k).events
        = Event.started :: ps.map Event.progress) := by
  unfold processFile
  split
  case isTrue h =>
    exact ⟨Or.inr (Or.inr (Or.inr (Or.inr rfl))),
      fun hne => absurd rfl hne, fun _ => Or.inl rfl⟩
  case isFalse h =>
    split
    case isTrue habs =>
      refine ⟨Or.inr (Or.inr (Or.inl rfl)), fun _ => ⟨[], ?_⟩,
        fun hcon => absurd (show missingS = cancelledS from hcon) (by decide)⟩
      rw [finishLabel_missing]
      rfl
    case isFalse habs =>
      simp only []
      split
      case isTrue hcan =>
        exact ⟨Or.inr (Or.inr (Or.inr (Or.inr rfl))),
          fun hne => absurd rfl hne, fun _ => Or.inr ⟨_, rfl⟩⟩
      case isFalse hcan =>
        split
        case h_1 heq =>
          refine ⟨Or.inr (Or.inr (Or.inl rfl)),
            fun _ => ⟨(calculateMd5 fs 655360 true k 1).emits, ?_⟩,
            fun hcon => absurd (show missingS = cancelledS from hcon) (by decide)⟩
          rw [finishLabel_missing, List.cons_append]
        case h_2 r heq =>
          split
          case isTrue hio =>
            refine ⟨Or.inr (Or.inr (Or.inr (Or.inl rfl))),
              fun _ => ⟨(calculateMd5 fs 655360 true k 1).emits, ?_⟩,
              fun hcon => absurd (show errorS = cancelledS from hcon) (by decide)⟩
            rw [finishLabel_error, List.cons_append]
          case isFalse hio =>
            split
            case isTrue hcmp =>
              refine ⟨Or.inl rfl,
                fun _ => ⟨(calculateMd5 fs 655360 true k 1).emits, ?_⟩,
                fun hcon => absurd (show okS = cancelledS from hcon) (by decide)⟩
              rw [finishLabel_ok, List.cons_append]
            case isFalse hcmp =>
              refine ⟨Or.inr (Or.inl rfl),
                fun _ => ⟨(calculateMd5 fs 655360 true k 1).emits, ?_⟩,
                fun hcon => absurd (show failedS = cancelledS from hcon) (by decide)⟩
              rw [finishLabel_failed, List.cons_append]

/-- Witness for C3 (amended): at a concrete OK run the three conjuncts are
realized, the second with its hypothesis discharged. -/
theorem claim3_witness :
    ∃ ps : List Int, (processFile (.present [] none)
        "d41d8cd98f00b204e9800998ecf8427e".data none).events
      = Event.started :: (ps.map Event.progress ++
          [Event.finished (finishLabel (processFile (.present [] none)
              "d41d8cd98f00b204e9800998ecf8427e".data none).status)]) :=
  (claim3_amended (.present [] none)
      "d41d8cd98f00b204e9800998ecf8427e".data none).2.1 (by decide)

/-- Counterexample to C2 as stated: the summary dictionary built at line 162
has no cancelled counter at all, and on a cancelled run the four counters it
does have sum to less than the total: with one submitted task and the
collection loop observing cancellation at its first read, every counter is 0
while the total is 1. -/
theorem claim2_counterexample :
    (runAggregate (some 0) [.status cancelledS]).ok +
        (runAggregate (some 0) [.status cancelledS]).failed +
        (runAggregate (some 0) [.status cancelledS]).missing +
        (runAggregate (some 0) [.status cancelledS]).error ≠
      (runAggregate (some 0) [.status cancelledS]).total := by decide

/-- C2 (amended): the emitted summary's total always equals the number of
submitted tasks, and for a run that is never cancelled — the collection loop
processes every result and every task completed with one of the four counted
statuses — ok + failed + missing + error equals total.  (There is no
cancelled counter in the summary; on cancelled runs the four counters can
sum to less than total.) -/
theorem claim2_amended (results : List TaskRes) :
    (runAggregate none results).total = results.length ∧
    ((∀ r ∈ results, r = .status okS ∨ r = .status failedS ∨
        r = .status missingS ∨ r = .status errorS) →
      (runAggregate none results).ok + (runAggregate none results).failed +
          (runAggregate none results).missing + (runAggregate none results).error
        = (runAggregate none results).total) := by
  constructor
  · unfold runAggregate
    rw [runAggGo_total]
  · intro hall
    unfold runAggregate
    rw [runAggGo_sum results 0 _ hall, runAggGo_total]
    dsimp only
    omega

/-- Witness for C2 (amended) at a concrete uncancelled two-task run. -/
theorem claim2_witness :
    (runAggregate none [.status okS, .status missingS]).ok +
        (runAggregate none [.status okS, .status missingS]).failed +
        (runAggregate none [.status okS, .status missingS]).missing +
        (runAggregate none [.status okS, .status missingS]).error
      = (runAggregate none [.status okS, .status missingS]).total :=
  (claim2_amended [.status okS, .status missingS]).2 (by decide)

/-- Counterexample to C4 as stated: a task whose processing raises an
unexpected exception is not converted to the IOError status — with a single
raising task the error counter stays 0 (the claim requires it to be 1)
although the summary is still produced with total 1. -/
theorem claim4_counterexample :
    (runAggregate none [.raised]).error = 0 ∧
    (runAggregate none [.raised]).total = 1 := by decide

/-- C4 (amended): an unexpected fault escaping one task is caught by the
collection loop's `except Exception: pass` and silently discarded: it
increments no counter, while sibling tasks before and after it contribute
exactly as they would without it, and a summary is still produced whose
total also counts the faulted task. -/
theorem claim4_amended (rs1 rs2 : List TaskRes) :
    (runAggregate none (rs1 ++ .raised :: rs2)).ok
        = (runAggregate none (rs1 ++ rs2)).ok ∧
    (runAggregate none (rs1 ++ .raised :: rs2)).failed
        = (runAggregate none (rs1 ++ rs2)).failed ∧
    (runAggregate none (rs1 ++ .raised :: rs2)).missing
        = (runAggregate none (rs1 ++ rs2)).missing ∧
    (runAggregate none (rs1 ++ .raised :: rs2)).error
        = (runAggregate none (rs1 ++ rs2)).error ∧
    (runAggregate none (rs1 ++ .raised :: rs2)).total
        = (runAggregate none (rs1 ++ rs2)).total + 1 := by
  unfold runAggregate
  have hlen : (rs1 ++ TaskRes.raised :: rs2).length = (rs1 ++ rs2).length + 1 := by
    simp only [List.length_append, List.length_cons]
    omega
  rw [runAggGo_skip_raised rs1 rs2 0 _, hlen]
  have hrec : (⟨0, 0, 0, 0, (rs1 ++ rs2).length + 1⟩ : Summary)
      = { (⟨0, 0, 0, 0, (rs1 ++ rs2).length⟩ : Summary) with
          total := (rs1 ++ rs2).length + 1 } := rfl
  rw [hrec, runAggGo_counts_ignore_total]
  refine ⟨rfl, rfl, rfl, rfl, ?_⟩
  dsimp only
  rw [runAggGo_total]

/-- C7: the parser keeps exactly the stripped lines that are non-blank, not
`;`-comments and contain a `*`, in manifest order, one task per such line;
the task count equals the count of those lines; and a manifest whose lines
are all blank or comments yields the empty task list. -/
theorem claim7_line_filtering (mdir : PyStr) (lines : List PyStr) :
    parseTasks mdir lines
        = ((lines.map stripL).filter
            (fun s => s.contains '*' && keepLine s)).map (taskOfLineT mdir) ∧
    (parseTasks mdir lines).length
        = ((lines.map stripL).filter
            (fun s => s.contains '*' && keepLine s)).length ∧
    ((∀ l ∈ lines, stripL l = [] ∨ (stripL l).head? = some ';') →
      parseTasks mdir lines = []) := by
  refine ⟨parseTasks_characterization mdir lines, ?_, ?_⟩
  · rw [parseTasks_characterization]
    exact List.length_map _ _
  · intro hall
    rw [parseTasks_characterization]
    have hnil : (lines.map stripL).filter
        (fun s => s.contains '*' && keepLine s) = [] := by
      rw [List.filter_eq_nil_iff]
      intro s hs
      rw [List.mem_map] at hs
      obtain ⟨l, hl, rfl⟩ := hs
      rcases hall l hl with h | h
      · simp [keepLine, h]
      · simp [keepLine, h]
    rw [hnil]
    rfl

/-- Witness for C7 at a manifest of one comment line and one blank line. -/
theorem claim7_witness :
    parseTasks "root".data ["; c".data, "   ".data] = [] :=
  (claim7_line_filtering "root".data ["; c".data, "   ".data]).2.2 (by decide)

/-- C8: manifest decoding attempts UTF-8 first; a decode failure triggers
exactly one retry with the cp1252 fallback; if both attempts fail — or the
first attempt fails with anything other than a decode error — the whole
parse returns `None` and no tasks exist, before anything is scheduled. -/
theorem claim8_decode_fallback (l1 l2 : List PyStr) (mp root : PyStr)
    (fb : ReadAttempt) :
    parseManifest (.ok l1) fb mp root = some (parseTasks (dirname mp) l1) ∧
    parseManifest .decodeErr (.ok l2) mp root = some (parseTasks (dirname mp) l2) ∧
    parseManifest .decodeErr .decodeErr mp root = none ∧
    parseManifest .decodeErr .otherErr mp root = none ∧
    parseManifest .otherErr fb mp root = none := by
  exact ⟨rfl, rfl, rfl, rfl, rfl⟩

/-- Counterexample to C1 as stated: with manifest `root/MD5/m.md5`, supplied
root directory `root` and line `AB*f.bin`, the parsed task's filepath is
`root/MD5/f.bin` — the path is joined to the manifest's own directory, not
to the supplied root, whose join would give the different `root/f.bin`. -/
theorem claim1_counterexample :
    parseManifest (.ok ["AB*f.bin".data]) .decodeErr
        "root/MD5/m.md5".data "root".data
      = some [⟨"root/MD5/f.bin".data, "AB".data, "f.bin".data⟩] ∧
    normpath (joinP "root".data "f.bin".data) ≠ "root/MD5/f.bin".data := by
  decide

/-- C1 (amended): for a well-formed manifest line `H*P` (H and P already
stripped, H star-free and not starting the line as a comment), the parsed
task's expected digest is exactly `H` and its filepath is `P` with
separators normalized, resolved against the directory containing the
manifest file (not the supplied root directory) and normalized by
`normpath`, which also strips leading `./` components. -/
theorem claim1_resolution (manifestPath rootFolder H P : PyStr)
    (fb : ReadAttempt) (hH : stripL H = H) (hP : stripL P = P)
    (hstar : '*' ∉ H) (hsemi : H.head? ≠ some ';') :
    parseManifest (.ok [H ++ '*' :: P]) fb manifestPath rootFolder
      = some [⟨normpath (joinP (dirname manifestPath) (normSeps P)), H,
          normSeps P⟩] := by
  have hline := stripL_append_star H P hH hP
  have hkeep := keepLine_append_star H P hsemi
  have hsp := splitFirst_append H P hstar
  show some (parseTasks (dirname manifestPath) [H ++ '*' :: P]) = _
  congr 1
  unfold parseTasks stage1
  simp only [List.map_cons, List.map_nil, hline, List.filter_cons, hkeep,
    List.filter_nil, if_true, List.filterMap_cons, List.filterMap_nil]
  simp only [taskOfLine, hsp, hH, hP]

/-- Witness for C1 (amended) at a concrete line `AB*x/y.bin` under
`root/MD5/m.md5`. -/
theorem claim1_witness :
    parseManifest (.ok ["AB".data ++ '*' :: "x/y.bin".data]) .decodeErr
        "root/MD5/m.md5".data "root".data
      = some [⟨normpath (joinP (dirname "root/MD5/m.md5".data)
          (normSeps "x/y.bin".data)), "AB".data, normSeps "x/y.bin".data⟩] :=
  claim1_resolution "root/MD5/m.md5".data "root".data "AB".data "x/y.bin".data
    .decodeErr (by decide) (by decide) (by decide) (by decide)
